import Mathlib

/-!
Shallow embedding of the Orchestrate flow execution engine
(`app/orchestrate/flow_runner.py` and the engine-facing part of
`app/orchestrate/skills.py`).

Python JSON-like values are modelled by `Val`; floats are modelled as exact
decimals `man / 10 ^ exp` (the decimal literals the engine manipulates are
all exactly representable).  Python dicts are association lists in insertion
order; dict assignment updates in place or appends, as CPython does.
Python `str.replace` is `strReplace`; `in` (substring) is `strHasSub`.
-/

mutual
inductive Val where
  | vNone : Val
  | vBool (b : Bool) : Val
  | vInt (n : Int) : Val
  | vFloat (man : Int) (exp : Nat) : Val
  | vStr (s : String) : Val
  | vDict (es : Entries) : Val
inductive Entries where
  | nil : Entries
  | cons (k : String) (v : Val) (rest : Entries) : Entries
end

deriving instance DecidableEq for Val

/-- Python `dict.get(k, default)` over the entries of a nested dict value. -/
def Entries.lookupD : Entries → String → Val → Val
  | .nil, _, d => d
  | .cons k v rest, key, d => if k = key then v else rest.lookupD key d

/-- Python `dict.get(k)` (no default) over nested dict entries. -/
def Entries.find : Entries → String → Option Val
  | .nil, _ => none
  | .cons k v rest, key => if k = key then some v else rest.find key

/-- Keys of the execution context are strings, except that a step with no
`output` and no `id` writes under Python `None`. -/
abbrev OKey := Option String

/-- The mutable execution context: a Python dict in insertion order. -/
abbrev Ctx := List (OKey × Val)

/-- Python `context.get(k, default)`. -/
def ctx_get (ctx : Ctx) (k : OKey) (d : Val) : Val :=
  match ctx with
  | [] => d
  | (k', v) :: rest => if k' = k then v else ctx_get rest k d

/-- Python `context.get(k)` (no default). -/
def ctx_find (ctx : Ctx) (k : OKey) : Option Val :=
  match ctx with
  | [] => none
  | (k', v) :: rest => if k' = k then some v else ctx_find rest k

/-- Python `context[k] = v`: update in place if present, else append. -/
def dict_set (ctx : Ctx) (k : OKey) (v : Val) : Ctx :=
  match ctx with
  | [] => [(k, v)]
  | (k', v') :: rest => if k' = k then (k', v) :: rest else (k', v') :: dict_set rest k v

/-- The key list of a context, in insertion order. -/
def ctxKeys (ctx : Ctx) : List OKey := ctx.map Prod.fst

/-- Python truthiness of a value. -/
def truthy : Val → Bool
  | .vNone => false
  | .vBool b => b
  | .vInt n => n != 0
  | .vFloat m _ => m != 0
  | .vStr s => s != ""
  | .vDict .nil => false
  | .vDict (.cons _ _ _) => true

/-- Python `a or b` (value-returning, truthiness-based). -/
def py_or (a b : Val) : Val := if truthy a then a else b

/-- Strip factors of 10 so a decimal renders without trailing zeros,
matching the shortest-representation rendering of CPython floats. -/
def decNorm : Int → Nat → Int × Nat
  | m, 0 => (m, 0)
  | m, e + 1 => if m % 10 == 0 then decNorm (m / 10) e else (m, e + 1)

/-- Left-pad a digit string with zeros to width `n`. -/
def padZeros (s : String) (n : Nat) : String :=
  if s.length ≥ n then s else String.mk (List.replicate (n - s.length) '0') ++ s

/-- Python `str` of the float `m / 10 ^ e`. -/
def floatStr (m : Int) (e : Nat) : String :=
  let p := decNorm m e
  let sign := if p.1 < 0 then "-" else ""
  let a := p.1.natAbs
  let ip := a / 10 ^ p.2
  let fp := a % 10 ^ p.2
  if p.2 = 0 then sign ++ toString ip ++ ".0"
  else sign ++ toString ip ++ "." ++ padZeros (toString fp) p.2

mutual
/-- Python `repr` of a value (string members of dicts are quoted). -/
def pyRepr : Val → String
  | .vNone => "None"
  | .vBool true => "True"
  | .vBool false => "False"
  | .vInt n => toString n
  | .vFloat m e => floatStr m e
  | .vStr s => "\x27" ++ s ++ "\x27"
  | .vDict es => "\x7b" ++ dictBody es ++ "\x7d"
/-- Python rendering of the inside of a dict display. -/
def dictBody : Entries → String
  | .nil => ""
  | .cons k v .nil => "\x27" ++ k ++ "\x27: " ++ pyRepr v
  | .cons k v (.cons k2 v2 r) =>
    "\x27" ++ k ++ "\x27: " ++ pyRepr v ++ ", " ++ dictBody (.cons k2 v2 r)
end

/-- Python `str` of a value (identity on strings, `repr` otherwise). -/
def pyStr : Val → String
  | .vStr s => s
  | v => pyRepr v

/-- Decides whether `needle` is a prefix of `hay` (over character lists). -/
def subAt : List Char → List Char → Bool
  | [], _ => true
  | _ :: _, [] => false
  | a :: as, b :: bs => a == b && subAt as bs

/-- Decides whether `needle` occurs anywhere in `hay`. -/
def hasSub (needle : List Char) : List Char → Bool
  | [] => subAt needle []
  | c :: cs => subAt needle (c :: cs) || hasSub needle cs

/-- Python `needle in hay` for strings. -/
def strHasSub (hay needle : String) : Bool := hasSub needle.data hay.data

/-- Replace every (non-overlapping, left-to-right) occurrence of `pat` by
`rep`; fuel is the length of the scanned list. -/
def replAux (pat rep : List Char) : Nat → List Char → List Char
  | _, [] => []
  | 0, l => l
  | n + 1, c :: cs =>
    if decide (pat ≠ []) && subAt pat (c :: cs) then
      rep ++ replAux pat rep n (List.drop (pat.length - 1) cs)
    else
      c :: replAux pat rep n cs

/-- Python `s.replace(pat, rep)`. -/
def strReplace (s pat rep : String) : String :=
  String.mk (replAux pat.data rep.data s.data.length s.data)

/-- Split a character list at the first occurrence of `pat`, returning the
part before it and the part after it (with `pat` consumed). -/
def splitFirst (pat : List Char) : List Char → Option (List Char × List Char)
  | [] => if pat = [] then some ([], []) else none
  | c :: cs =>
    if subAt pat (c :: cs) then some ([], List.drop pat.length (c :: cs))
    else (splitFirst pat cs).map (fun p => (c :: p.1, p.2))

/-- Python code-point comparison of strings (strict less-than). -/
def charsLt : List Char → List Char → Bool
  | [], [] => false
  | [], _ :: _ => true
  | _ :: _, [] => false
  | a :: as, b :: bs => a.toNat < b.toNat || (a == b && charsLt as bs)

/-- Python `isinstance(v, (str, int, float, bool))`. -/
def scalar_like : Val → Bool
  | .vStr _ => true
  | .vInt _ => true
  | .vFloat _ _ => true
  | .vBool _ => true
  | _ => false

/-- Rendering of a context key inside an f-string (`None` for a missing id). -/
def okey_str : OKey → String
  | some s => s
  | none => "None"

/-- One pass of the nested-placeholder loop of `_resolve_variables`:
replace every occurrence of each pattern built from a dict-valued
context entry and its direct subkeys. -/
def resolve_str_sub (acc : String) (k : String) : Entries → String
  | .nil => acc
  | .cons sk sv rest =>
    resolve_str_sub
      (strReplace acc ("\x7b\x7b" ++ k ++ "." ++ sk ++ "\x7d\x7d") (pyStr sv)) k rest

/-- Body of the context-iteration loop of `_resolve_variables` for one
context entry: scalar substitution, then one-level nested substitution. -/
def resolve_str_entry (acc : String) (k : OKey) (v : Val) : String :=
  let acc1 :=
    if scalar_like v then
      strReplace acc ("\x7b\x7b" ++ okey_str k ++ "\x7d\x7d") (pyStr v)
    else acc
  match v with
  | .vDict es => resolve_str_sub acc1 (okey_str k) es
  | _ => acc1

/-- Sequential substitution of a template string against all context
entries, in context insertion order (the loop of `_resolve_variables`). -/
def resolve_str (s : String) (ctx : Ctx) : String :=
  ctx.foldl (fun acc kv => resolve_str_entry acc kv.1 kv.2) s

/-- Per-value part of `FlowRunner._resolve_variables`: only strings
containing both brace pairs are rewritten. -/
def resolve_value (v : Val) (ctx : Ctx) : Val :=
  match v with
  | .vStr s =>
    if strHasSub s "\x7b\x7b" && strHasSub s "\x7d\x7d" then .vStr (resolve_str s ctx)
    else .vStr s
  | _ => v

/-- `FlowRunner._resolve_variables`. -/
def resolve_variables (template : List (String × Val)) (ctx : Ctx) : List (String × Val) :=
  template.map (fun kv => (kv.1, resolve_value kv.2 ctx))

/-- The nested-path walk of the `get_val` helper inside
`FlowRunner._evaluate_condition` (non-dict intermediate values yield `None`). -/
def val_path : Val → List String → Val
  | v, [] => v
  | .vDict es, p :: ps => val_path (es.lookupD p .vNone) ps
  | _, _ :: _ => .vNone

/-- The `get_val` helper of `_evaluate_condition`, applied to an already
split dotted path (the used paths are never empty). -/
def get_val (ctx : Ctx) : List String → Val
  | [] => .vNone
  | p :: ps => val_path (ctx_get ctx (some p) .vNone) ps

/-- The substituted score for `risk.score`: Python
`get_val("risk.score") or get_val("risk.result.score") or 0.5`. -/
def risk_score_val (ctx : Ctx) : Val :=
  py_or (get_val ctx ["risk", "score"])
    (py_or (get_val ctx ["risk", "result", "score"]) (.vFloat 5 1))

/-- The textual substitution phase of `_evaluate_condition`: the two
pre-registered dotted paths, then the JS-operator rewrite. -/
def cond_subst (cond : String) (ctx : Ctx) : String :=
  let e1 :=
    if strHasSub cond "risk.score" then
      strReplace cond "risk.score" (pyStr (risk_score_val ctx))
    else cond
  let e2 :=
    if strHasSub e1 "validation.ok" then
      strReplace
        (strReplace
          (strReplace e1 "validation.ok" (pyStr (get_val ctx ["validation", "ok"])))
          "true" "True")
        "false" "False"
    else e1
  strReplace (strReplace e2 "&&" " and ") "||" " or "

/-- Tokens of the expression subset that substituted condition strings
can contain (Python `eval` is modelled on this fragment). -/
inductive Tok where
  | lit (v : Val) : Tok
  | ident (s : String) : Tok
  | ltT : Tok
  | gtT : Tok
  | leT : Tok
  | geT : Tok
  | eqT : Tok
  | neT : Tok
  | andT : Tok
  | orT : Tok
  | lparen : Tok
  | rparen : Tok
  | minus : Tok

/-- Character class of identifier starters. -/
def identStart (c : Char) : Bool := c.isAlpha || c == '_'

/-- Character class of identifier continuations. -/
def identCont (c : Char) : Bool := c.isAlpha || c.isDigit || c == '_'

/-- Longest prefix satisfying `p`, with the remainder. -/
def takeWhileB (p : Char → Bool) : List Char → List Char × List Char
  | [] => ([], [])
  | c :: cs =>
    if p c then
      let r := takeWhileB p cs
      (c :: r.1, r.2)
    else ([], c :: cs)

/-- Digit-string to number. -/
def digitsToNat (l : List Char) : Nat :=
  l.foldl (fun a c => a * 10 + (c.toNat - 48)) 0

/-- Keyword and name recognition for scanned identifiers. -/
def identTok (s : String) : Tok :=
  if s = "True" then .lit (.vBool true)
  else if s = "False" then .lit (.vBool false)
  else if s = "None" then .lit .vNone
  else if s = "and" then .andT
  else if s = "or" then .orT
  else .ident s

/-- Tokenizer for the modelled `eval` fragment; any character outside the
fragment is a syntax error, as the corresponding Python text would
raise at compile or name-resolution time. -/
def tokenize : Nat → List Char → Except String (List Tok)
  | _, [] => .ok []
  | 0, _ => .error "SyntaxError: fuel"
  | n + 1, c :: cs =>
    if c == ' ' then tokenize n cs
    else if c.isDigit then
      let ip := takeWhileB Char.isDigit (c :: cs)
      match ip.2 with
      | '.' :: rest2 =>
        let fp := takeWhileB Char.isDigit rest2
        let man : Int := (digitsToNat ip.1 * 10 ^ fp.1.length + digitsToNat fp.1 : Nat)
        (tokenize n fp.2).map (fun ts => .lit (.vFloat man fp.1.length) :: ts)
      | _ =>
        (tokenize n ip.2).map (fun ts => .lit (.vInt (digitsToNat ip.1 : Nat)) :: ts)
    else if identStart c then
      let idp := takeWhileB identCont (c :: cs)
      (tokenize n idp.2).map (fun ts => identTok (String.mk idp.1) :: ts)
    else if c == '<' then
      match cs with
      | '=' :: rest => (tokenize n rest).map (fun ts => .leT :: ts)
      | _ => (tokenize n cs).map (fun ts => .ltT :: ts)
    else if c == '>' then
      match cs with
      | '=' :: rest => (tokenize n rest).map (fun ts => .geT :: ts)
      | _ => (tokenize n cs).map (fun ts => .gtT :: ts)
    else if c == '=' then
      match cs with
      | '=' :: rest => (tokenize n rest).map (fun ts => .eqT :: ts)
      | _ => .error "SyntaxError: ="
    else if c == '!' then
      match cs with
      | '=' :: rest => (tokenize n rest).map (fun ts => .neT :: ts)
      | _ => .error "SyntaxError: !"
    else if c == '(' then (tokenize n cs).map (fun ts => .lparen :: ts)
    else if c == ')' then (tokenize n cs).map (fun ts => .rparen :: ts)
    else if c == '-' then (tokenize n cs).map (fun ts => .minus :: ts)
    else .error "SyntaxError: bad character"

/-- Comparison operators. -/
inductive CmpOp where
  | lt : CmpOp
  | gt : CmpOp
  | le : CmpOp
  | ge : CmpOp
  | eq : CmpOp
  | ne : CmpOp
deriving DecidableEq

/-- Abstract syntax of the modelled `eval` fragment; comparison chains
are desugared to conjunctions of binary comparisons during parsing
(sound here because every operand is a pure atom). -/
inductive PyExpr where
  | lit (v : Val) : PyExpr
  | name (s : String) : PyExpr
  | neg (e : PyExpr) : PyExpr
  | cmp2 (l : PyExpr) (op : CmpOp) (r : PyExpr) : PyExpr
  | andE (l r : PyExpr) : PyExpr
  | orE (l r : PyExpr) : PyExpr

/-- Comparison token to operator, if any. -/
def cmpOfTok : Tok → Option CmpOp
  | .ltT => some .lt
  | .gtT => some .gt
  | .leT => some .le
  | .geT => some .ge
  | .eqT => some .eq
  | .neT => some .ne
  | _ => none

mutual
/-- Atoms: literals, names, unary minus, parenthesised expressions. -/
def parseAtom : Nat → List Tok → Except String (PyExpr × List Tok)
  | 0, _ => .error "SyntaxError: fuel"
  | _ + 1, .lit v :: rest => .ok (.lit v, rest)
  | _ + 1, .ident s :: rest => .ok (.name s, rest)
  | n + 1, .minus :: rest => (parseAtom n rest).map (fun p => (.neg p.1, p.2))
  | n + 1, .lparen :: rest =>
    match parseOr n rest with
    | .error e => .error e
    | .ok (e, .rparen :: r2) => .ok (e, r2)
    | .ok _ => .error "SyntaxError: expected closing paren"
  | _ + 1, _ => .error "SyntaxError: atom"
/-- Possibly chained comparisons, desugared left to right. -/
def parseCmpRest (acc prev : PyExpr) : Nat → List Tok → Except String (PyExpr × List Tok)
  | 0, _ => .error "SyntaxError: fuel"
  | n + 1, toks =>
    match toks with
    | t :: rest =>
      match cmpOfTok t with
      | some op =>
        match parseAtom n rest with
        | .error e => .error e
        | .ok (b, r2) => parseCmpRest (.andE acc (.cmp2 prev op b)) b n r2
      | none => .ok (acc, toks)
    | [] => .ok (acc, toks)
/-- A comparison expression. -/
def parseCmp : Nat → List Tok → Except String (PyExpr × List Tok)
  | 0, _ => .error "SyntaxError: fuel"
  | n + 1, toks =>
    match parseAtom n toks with
    | .error e => .error e
    | .ok (a, rest) =>
      match rest with
      | t :: r2 =>
        match cmpOfTok t with
        | some op =>
          match parseAtom n r2 with
          | .error e => .error e
          | .ok (b, r3) => parseCmpRest (.cmp2 a op b) b n r3
        | none => .ok (a, rest)
      | [] => .ok (a, rest)
/-- Left-associated `and` chains. -/
def parseAnd : Nat → List Tok → Except String (PyExpr × List Tok)
  | 0, _ => .error "SyntaxError: fuel"
  | n + 1, toks =>
    match parseCmp n toks with
    | .error e => .error e
    | .ok (a, rest) => parseAndRest a n rest
/-- Continuation of an `and` chain. -/
def parseAndRest (acc : PyExpr) : Nat → List Tok → Except String (PyExpr × List Tok)
  | 0, _ => .error "SyntaxError: fuel"
  | n + 1, .andT :: rest =>
    match parseCmp n rest with
    | .error e => .error e
    | .ok (b, r2) => parseAndRest (.andE acc b) n r2
  | _ + 1, toks => .ok (acc, toks)
/-- Left-associated `or` chains. -/
def parseOr : Nat → List Tok → Except String (PyExpr × List Tok)
  | 0, _ => .error "SyntaxError: fuel"
  | n + 1, toks =>
    match parseAnd n toks with
    | .error e => .error e
    | .ok (a, rest) => parseOrRest a n rest
/-- Continuation of an `or` chain. -/
def parseOrRest (acc : PyExpr) : Nat → List Tok → Except String (PyExpr × List Tok)
  | 0, _ => .error "SyntaxError: fuel"
  | n + 1, .orT :: rest =>
    match parseAnd n rest with
    | .error e => .error e
    | .ok (b, r2) => parseOrRest (.orE acc b) n r2
  | _ + 1, toks => .ok (acc, toks)
end

/-- Numeric view of a value (Python treats `bool` as `int` here):
a pair `(m, e)` denoting `m / 10 ^ e`. -/
def toNum : Val → Option (Int × Nat)
  | .vInt n => some (n, 0)
  | .vFloat m e => some (m, e)
  | .vBool b => some (if b then 1 else 0, 0)
  | _ => none

/-- Strict order on decimal pairs by cross-multiplication. -/
def numLt (a b : Int × Nat) : Bool := a.1 * 10 ^ b.2 < b.1 * 10 ^ a.2

/-- Equality of decimal pairs by cross-multiplication. -/
def numEq (a b : Int × Nat) : Bool := a.1 * 10 ^ b.2 == b.1 * 10 ^ a.2

/-- Python `==` on the values the fragment can produce (mixed types are
simply unequal; dict operands cannot be produced by the tokenizer). -/
def py_eq (a b : Val) : Bool :=
  match toNum a, toNum b with
  | some x, some y => numEq x y
  | _, _ =>
    match a, b with
    | .vStr s, .vStr t => s == t
    | .vNone, .vNone => true
    | _, _ => false

/-- Python comparison operators; ordering mixed non-numeric operands is a
`TypeError`. -/
def py_cmp (op : CmpOp) (a b : Val) : Except String Val :=
  match op with
  | .eq => .ok (.vBool (py_eq a b))
  | .ne => .ok (.vBool (!py_eq a b))
  | _ =>
    match toNum a, toNum b with
    | some x, some y =>
      .ok (.vBool
        (match op with
        | .lt => numLt x y
        | .gt => numLt y x
        | .le => !numLt y x
        | .ge => !numLt x y
        | _ => false))
    | _, _ =>
      match a, b with
      | .vStr s, .vStr t =>
        .ok (.vBool
          (match op with
          | .lt => charsLt s.data t.data
          | .gt => charsLt t.data s.data
          | .le => !charsLt t.data s.data
          | .ge => !charsLt s.data t.data
          | _ => false))
      | _, _ => .error "TypeError: unorderable"

/-- Evaluation of the modelled fragment, with Python short-circuit
semantics for `and` / `or` (both return an operand value). -/
def pyEvalExpr : PyExpr → Except String Val
  | .lit v => .ok v
  | .name s => .error ("NameError: " ++ s)
  | .neg e =>
    match pyEvalExpr e with
    | .error err => .error err
    | .ok (.vInt n) => .ok (.vInt (-n))
    | .ok (.vBool b) => .ok (.vInt (-(if b then (1 : Int) else 0)))
    | .ok (.vFloat m e') => .ok (.vFloat (-m) e')
    | .ok _ => .error "TypeError: bad operand for unary minus"
  | .cmp2 l op r =>
    match pyEvalExpr l with
    | .error err => .error err
    | .ok lv =>
      match pyEvalExpr r with
      | .error err => .error err
      | .ok rv => py_cmp op lv rv
  | .andE l r =>
    match pyEvalExpr l with
    | .error err => .error err
    | .ok lv => if truthy lv then pyEvalExpr r else .ok lv
  | .orE l r =>
    match pyEvalExpr l with
    | .error err => .error err
    | .ok lv => if truthy lv then .ok lv else pyEvalExpr r

/-- Python `eval` on a substituted condition string, modelled on the
expression fragment such strings range over. -/
def py_eval_str (s : String) : Except String Val :=
  match tokenize (s.data.length + 1) s.data with
  | .error e => .error e
  | .ok toks =>
    match parseOr (4 * toks.length + 8) toks with
    | .error e => .error e
    | .ok (e, []) => pyEvalExpr e
    | .ok _ => .error "SyntaxError: trailing tokens"

/-- `FlowRunner._evaluate_condition`: substitution followed by `eval`,
with every failure caught and turned into `False`; a missing condition
value (`None`) fails at the first substring test and is likewise caught. -/
def evaluate_condition (cond : Option String) (ctx : Ctx) : Val :=
  match cond with
  | none => .vBool false
  | some c =>
    match py_eval_str (cond_subst c ctx) with
    | .ok v => v
    | .error _ => .vBool false

/-- `FlowRunner._script_validate_invoice`; the Python exceptions this
handler can raise (`AttributeError` when `context["invoice"]` is not a
dict, `TypeError` when `invoice["total"]` is not comparable with `0`)
are modelled as `Except.error`. -/
def script_validate_invoice (ctx : Ctx) : Except String Val :=
  match ctx_get ctx (some "invoice") (.vDict .nil) with
  | .vDict inv =>
    match py_cmp .gt (inv.lookupD "total" (.vInt 0)) (.vInt 0) with
    | .error e => .error e
    | .ok g =>
      if truthy g && truthy (inv.lookupD "vendor" .vNone) then
        .ok (.vDict (.cons "ok" (.vBool true) (.cons "message" (.vStr "Valid") .nil)))
      else
        .ok (.vDict (.cons "ok" (.vBool false)
          (.cons "message" (.vStr "Missing required fields") .nil)))
  | _ => .error "AttributeError: get"

/-- `FlowRunner._script_auto_approve` (the `invoice.get` call in its log
line raises `AttributeError` when `context["invoice"]` is not a dict). -/
def script_auto_approve (ctx : Ctx) : Except String Val :=
  match ctx_get ctx (some "invoice") (.vDict .nil) with
  | .vDict _ => .ok (.vDict (.cons "approved" (.vBool true) .nil))
  | _ => .error "AttributeError: get"

/-- The fixed `script_handlers` registry, in its insertion order. -/
def script_handlers : List (String × (Ctx → Except String Val)) :=
  [("validate_invoice", script_validate_invoice), ("auto_approve", script_auto_approve)]

/-- The handler-search loop of `_execute_script_step`: first registered
handler whose name occurs in the script text. -/
def find_handler (script : String) : Option (String × (Ctx → Except String Val)) :=
  script_handlers.find? (fun p => strHasSub script p.1)

/-- A step definition (`id`, `type`, `skill`, `input`, `output`,
`script`, `event`, `cases` as read off the flow JSON; absent keys are
`none`, an absent `input` is the empty map and an absent `script` the
empty string, matching the `.get` defaults used by the runner). -/
inductive Step where
  | mk (id : OKey) (stepType : OKey) (skill : OKey) (input : List (String × Val))
      (output : OKey) (script : String) (event : OKey)
      (cases : List (OKey × List Step)) : Step

def Step.id : Step → OKey
  | .mk i _ _ _ _ _ _ _ => i

def Step.stepType : Step → OKey
  | .mk _ t _ _ _ _ _ _ => t

def Step.skill : Step → OKey
  | .mk _ _ sk _ _ _ _ _ => sk

def Step.input : Step → List (String × Val)
  | .mk _ _ _ inp _ _ _ _ => inp

def Step.output : Step → OKey
  | .mk _ _ _ _ out _ _ _ => out

def Step.script : Step → String
  | .mk _ _ _ _ _ scr _ _ => scr

def Step.event : Step → OKey
  | .mk _ _ _ _ _ _ ev _ => ev

def Step.cases : Step → List (OKey × List Step)
  | .mk _ _ _ _ _ _ _ cs => cs

/-- Python `step.get("output", step.get("id"))`. -/
def output_var (out i : OKey) : OKey :=
  match out with
  | some o => some o
  | none => i

/-- One result record, as appended to the `results` list. -/
structure Rec where
  step : OKey
  status : String
  output : Option Val
  error : Option String
  reason : Option String
deriving DecidableEq

/-- The skill-invocation capability consumed by the engine
(`orchestrate_skills.invoke_skill`); a Python `None` return is `vNone`. -/
abbrev SkillFn := OKey → List (String × Val) → Val

/-- The not-connected branch of `OrchestrateSkills.invoke_skill`: the
mock response `\x7b"skill": name, "status": "mock_success", "result": input\x7d`. -/
def mock_invoke_skill (name : OKey) (input : List (String × Val)) : Val :=
  .vDict (.cons "skill" (match name with | some s => .vStr s | none => .vNone)
    (.cons "status" (.vStr "mock_success")
      (.cons "result" (.vDict (input.foldr (fun kv es => .cons kv.1 kv.2 es) .nil)) .nil)))

/-- `FlowRunner._execute_skill_step`. -/
def execute_skill_step (f : SkillFn) (s : Step) (ctx : Ctx) (results : List Rec) :
    Ctx × List Rec :=
  let resolved := resolve_variables s.input ctx
  let result := f s.skill resolved
  let out := output_var s.output s.id
  if truthy result then
    (dict_set ctx out result, results ++ [⟨s.id, "success", some result, none, none⟩])
  else
    (ctx, results ++ [⟨s.id, "failed", none, none, none⟩])

/-- `FlowRunner._execute_script_step`. -/
def execute_script_step (s : Step) (ctx : Ctx) (results : List Rec) : Ctx × List Rec :=
  match find_handler s.script with
  | some p =>
    match p.2 ctx with
    | .ok result =>
      (dict_set ctx (output_var s.output s.id) result,
        results ++ [⟨s.id, "success", some result, none, none⟩])
    | .error e => (ctx, results ++ [⟨s.id, "failed", none, some e, none⟩])
  | none => (ctx, results ++ [⟨s.id, "skipped", none, none, some "no_handler"⟩])

mutual
/-- `FlowRunner._execute_steps`: sequential dispatch on the step type;
the third component records whether the loop was left early by the
`break` of a `wait_for_event` step (visible only inside one sequence,
exactly as in the source). -/
def execute_steps (f : SkillFn) : List Step → Ctx → List Rec → Ctx × List Rec × Bool
  | [], ctx, results => (ctx, results, false)
  | .mk i ty sk inp out scr ev cases :: rest, ctx, results =>
    match ty with
    | some "skill" =>
      let p := execute_skill_step f (.mk i ty sk inp out scr ev cases) ctx results
      execute_steps f rest p.1 p.2
    | some "script" =>
      let p := execute_script_step (.mk i ty sk inp out scr ev cases) ctx results
      execute_steps f rest p.1 p.2
    | some "switch" =>
      let p := execute_switch_cases f cases ctx results
      execute_steps f rest p.1 p.2
    | some "wait_for_event" =>
      (ctx, results ++ [⟨i, "paused", none, none, some "wait_for_event"⟩], true)
    | _ => execute_steps f rest ctx results
  termination_by l _ _ => sizeOf l
/-- The case loop of `FlowRunner._execute_switch_step`: first case whose
condition is the literal `else` or evaluates truthy wins; its actions
run as a nested sequence whose early break is not propagated. -/
def execute_switch_cases (f : SkillFn) :
    List (OKey × List Step) → Ctx → List Rec → Ctx × List Rec
  | [], ctx, results => (ctx, results)
  | (condition, actions) :: cs, ctx, results =>
    if condition = some "else" ∨ truthy (evaluate_condition condition ctx) then
      let p := execute_steps f actions ctx results
      (p.1, p.2.1)
    else execute_switch_cases f cs ctx results
  termination_by l _ _ => sizeOf l
end

/-- `FlowRunner._execute_switch_step` (the `matched` flag only feeds a
log line). -/
def execute_switch_step (f : SkillFn) (s : Step) (ctx : Ctx) (results : List Rec) :
    Ctx × List Rec :=
  execute_switch_cases f s.cases ctx results

mutual
/-- Ghost observation of `execute_steps`: the context keys written by
skill and script steps in the branches where those steps also append
their `success` result record, in execution order (mirrors
`execute_steps` and appends one key exactly where it appends a
`success` record and performs `context[output_var] = result`). -/
def success_write_keys (f : SkillFn) : List Step → Ctx → List OKey
  | [], _ => []
  | .mk i ty sk inp out scr _ cases :: rest, ctx =>
    match ty with
    | some "skill" =>
      let result := f sk (resolve_variables inp ctx)
      if truthy result then
        output_var out i ::
          success_write_keys f rest (dict_set ctx (output_var out i) result)
      else success_write_keys f rest ctx
    | some "script" =>
      match find_handler scr with
      | some p =>
        match p.2 ctx with
        | .ok v =>
          output_var out i ::
            success_write_keys f rest (dict_set ctx (output_var out i) v)
        | .error _ => success_write_keys f rest ctx
      | none => success_write_keys f rest ctx
    | some "switch" =>
      success_keys_cases f cases ctx ++
        success_write_keys f rest (execute_switch_cases f cases ctx []).1
    | some "wait_for_event" => []
    | _ => success_write_keys f rest ctx
  termination_by l _ => sizeOf l
/-- Ghost observation of `execute_switch_cases`. -/
def success_keys_cases (f : SkillFn) : List (OKey × List Step) → Ctx → List OKey
  | [], _ => []
  | (condition, actions) :: cs, ctx =>
    if condition = some "else" ∨ truthy (evaluate_condition condition ctx) then
      success_write_keys f actions ctx
    else success_keys_cases f cs ctx
  termination_by l _ => sizeOf l
end

/-- The outcome dict of `execute_flow`; the unknown-flow return carries
only `error` and `status`, the normal return carries `flow`, `status`,
`results` and `final_context`, so the absent keys are `none`. -/
structure Outcome where
  flow : Option String
  status : String
  results : Option (List Rec)
  final_context : Option Ctx
  error : Option String
deriving DecidableEq

/-- Exact-match lookup in the flow registry (`flow_name not in self.flows`). -/
def flow_lookup (flows : List (String × List Step)) (name : String) : Option (List Step) :=
  match flows with
  | [] => none
  | (n, s) :: rest => if n = name then some s else flow_lookup rest name

/-- The context seeded by `context = input_data.copy()`. -/
def input_ctx (input : List (String × Val)) : Ctx :=
  input.map (fun p => (some p.1, p.2))

/-- `FlowRunner.execute_flow`.  In this embedding the step interpreter
is total, so the top-level `except` branch is unreachable and the
status of a registered flow is always `completed`. -/
def execute_flow (f : SkillFn) (flows : List (String × List Step)) (flow_name : String)
    (input_data : List (String × Val)) : Outcome :=
  match flow_lookup flows flow_name with
  | none => ⟨none, "failed", none, none, some ("Flow " ++ flow_name ++ " not found")⟩
  | some steps =>
    let r := execute_steps f steps (input_ctx input_data) []
    ⟨some flow_name, "completed", some r.2.1, some r.1, none⟩

theorem dict_set_keys (ctx : Ctx) (k w : OKey) (v : Val) :
    k ∈ ctxKeys (dict_set ctx w v) ↔ k = w ∨ k ∈ ctxKeys ctx := by
  induction ctx with
  | nil => simp [dict_set, ctxKeys]
  | cons kv rest ih =>
    obtain ⟨k', v'⟩ := kv
    by_cases h : k' = w
    · subst h
      simp [dict_set, ctxKeys]
    · simp only [dict_set, if_neg h, ctxKeys, List.map_cons, List.mem_cons] at *
      tauto

theorem execute_skill_step_acc (f : SkillFn) (s : Step) (ctx : Ctx) (results : List Rec) :
    execute_skill_step f s ctx results =
      ((execute_skill_step f s ctx []).1, results ++ (execute_skill_step f s ctx []).2) := by
  by_cases h : truthy (f s.skill (resolve_variables s.input ctx)) <;>
    simp [execute_skill_step, h]

theorem execute_script_step_acc (s : Step) (ctx : Ctx) (results : List Rec) :
    execute_script_step s ctx results =
      ((execute_script_step s ctx []).1, results ++ (execute_script_step s ctx []).2) := by
  unfold execute_script_step
  match hf : find_handler s.script with
  | none => simp
  | some p =>
    match hr : p.2 ctx with
    | .ok v => simp [hr]
    | .error e => simp [hr]

theorem execute_steps_other (f : SkillFn) (i ty sk : OKey) (inp : List (String × Val))
    (out : OKey) (scr : String) (ev : OKey) (cases : List (OKey × List Step))
    (rest : List Step) (ctx : Ctx) (results : List Rec)
    (h1 : ty ≠ some "skill") (h2 : ty ≠ some "script") (h3 : ty ≠ some "switch")
    (h4 : ty ≠ some "wait_for_event") :
    execute_steps f (.mk i ty sk inp out scr ev cases :: rest) ctx results =
      execute_steps f rest ctx results := by
  rw [execute_steps.eq_def]
  split <;> simp_all

theorem execute_steps_res_acc (f : SkillFn) :
    ∀ (steps : List Step) (ctx : Ctx) (results : List Rec),
      execute_steps f steps ctx results =
        ((execute_steps f steps ctx []).1,
          results ++ (execute_steps f steps ctx []).2.1,
          (execute_steps f steps ctx []).2.2) := by
  intro steps0 ctx0 results0
  refine execute_steps.induct f
    (fun steps ctx _ => ∀ res, execute_steps f steps ctx res =
      ((execute_steps f steps ctx []).1, res ++ (execute_steps f steps ctx []).2.1,
        (execute_steps f steps ctx []).2.2))
    (fun cases ctx _ => ∀ res, execute_switch_cases f cases ctx res =
      ((execute_switch_cases f cases ctx []).1,
        res ++ (execute_switch_cases f cases ctx []).2))
    ?_ ?_ ?_ ?_ ?_ ?_ ?_ ?_ ?_ steps0 ctx0 results0 results0
  · intro ctx results res
    simp [execute_steps]
  · intro i sk inp out scr ev cases rest ctx results
    dsimp only
    intro ih res
    rw [execute_skill_step_acc f _ ctx results] at ih
    dsimp only at ih
    simp only [execute_steps]
    rw [execute_skill_step_acc f _ ctx res]
    dsimp only
    set A := execute_skill_step f (Step.mk i (some "skill") sk inp out scr ev cases) ctx []
      with hA
    rw [ih (res ++ A.2), ih A.2]
    simp
  · intro i sk inp out scr ev cases rest ctx results
    dsimp only
    intro ih res
    rw [execute_script_step_acc _ ctx results] at ih
    dsimp only at ih
    simp only [execute_steps]
    rw [execute_script_step_acc _ ctx res]
    dsimp only
    set A := execute_script_step (Step.mk i (some "script") sk inp out scr ev cases) ctx []
      with hA
    rw [ih (res ++ A.2), ih A.2]
    simp
  · intro i sk inp out scr ev cases rest ctx results
    dsimp only
    intro ihc ih res
    rw [ihc results] at ih
    dsimp only at ih
    simp only [execute_steps]
    rw [ihc res]
    dsimp only
    set A := execute_switch_cases f cases ctx [] with hA
    rw [ih (res ++ A.2), ih A.2]
    simp
  · intro i sk inp out scr ev cases rest ctx results res
    simp [execute_steps]
  · intro i ty sk inp out scr ev cases rest ctx results h1 h2 h3 h4 ih res
    rw [execute_steps_other f i ty sk inp out scr ev cases rest ctx res
        (fun h => h1 h) (fun h => h2 h) (fun h => h3 h) (fun h => h4 h),
      execute_steps_other f i ty sk inp out scr ev cases rest ctx []
        (fun h => h1 h) (fun h => h2 h) (fun h => h3 h) (fun h => h4 h)]
    exact ih res
  · intro ctx results res
    simp [execute_switch_cases]
  · intro condition actions cs ctx results
    intro hm ih res
    simp only [execute_switch_cases, if_pos hm]
    rw [ih res, ih []]
  · intro condition actions cs ctx results
    intro hm ih res
    simp only [execute_switch_cases, if_neg hm]
    exact ih res

theorem execute_switch_cases_res_acc (f : SkillFn) :
    ∀ (cases : List (OKey × List Step)) (ctx : Ctx) (results : List Rec),
      execute_switch_cases f cases ctx results =
        ((execute_switch_cases f cases ctx []).1,
          results ++ (execute_switch_cases f cases ctx []).2) := by
  intro cases ctx results
  induction cases with
  | nil => simp [execute_switch_cases]
  | cons c cs ih =>
    obtain ⟨condition, actions⟩ := c
    by_cases hm : condition = some "else" ∨ truthy (evaluate_condition condition ctx) = true
    · simp only [execute_switch_cases, if_pos hm]
      rw [execute_steps_res_acc f actions ctx results, execute_steps_res_acc f actions ctx []]
    · simp only [execute_switch_cases, if_neg hm]
      exact ih

theorem execute_steps_append (f : SkillFn) :
    ∀ (l1 l2 : List Step) (ctx : Ctx) (results : List Rec),
      execute_steps f (l1 ++ l2) ctx results =
        (if (execute_steps f l1 ctx results).2.2 then execute_steps f l1 ctx results
         else execute_steps f l2 (execute_steps f l1 ctx results).1
                (execute_steps f l1 ctx results).2.1) := by
  intro l1
  induction l1 with
  | nil => intro l2 ctx results; simp [execute_steps]
  | cons s rest ih =>
    obtain ⟨i, ty, sk, inp, out, scr, ev, cases⟩ := s
    intro l2 ctx results
    by_cases h1 : ty = some "skill"
    · subst h1
      simp only [List.cons_append, execute_steps]
      exact ih l2 _ _
    · by_cases h2 : ty = some "script"
      · subst h2
        simp only [List.cons_append, execute_steps]
        exact ih l2 _ _
      · by_cases h3 : ty = some "switch"
        · subst h3
          simp only [List.cons_append, execute_steps]
          exact ih l2 _ _
        · by_cases h4 : ty = some "wait_for_event"
          · subst h4
            simp only [List.cons_append, execute_steps]
            simp
          · rw [List.cons_append,
              execute_steps_other f i ty sk inp out scr ev cases (rest ++ l2) ctx results
                h1 h2 h3 h4,
              execute_steps_other f i ty sk inp out scr ev cases rest ctx results h1 h2 h3 h4]
            exact ih l2 ctx results

theorem success_write_keys_other (f : SkillFn) (i ty sk : OKey) (inp : List (String × Val))
    (out : OKey) (scr : String) (ev : OKey) (cases : List (OKey × List Step))
    (rest : List Step) (ctx : Ctx)
    (h1 : ty ≠ some "skill") (h2 : ty ≠ some "script") (h3 : ty ≠ some "switch")
    (h4 : ty ≠ some "wait_for_event") :
    success_write_keys f (.mk i ty sk inp out scr ev cases :: rest) ctx =
      success_write_keys f rest ctx := by
  rw [success_write_keys.eq_def]
  split <;> simp_all

theorem execute_steps_keys (f : SkillFn) :
    ∀ (steps : List Step) (ctx : Ctx) (results : List Rec) (k : OKey),
      (k ∈ ctxKeys (execute_steps f steps ctx results).1 ↔
        k ∈ ctxKeys ctx ∨ k ∈ success_write_keys f steps ctx) := by
  intro steps0 ctx0 results0 k0
  refine execute_steps.induct f
    (fun steps ctx _ => ∀ res k, k ∈ ctxKeys (execute_steps f steps ctx res).1 ↔
      k ∈ ctxKeys ctx ∨ k ∈ success_write_keys f steps ctx)
    (fun cases ctx _ => ∀ res k, k ∈ ctxKeys (execute_switch_cases f cases ctx res).1 ↔
      k ∈ ctxKeys ctx ∨ k ∈ success_keys_cases f cases ctx)
    ?_ ?_ ?_ ?_ ?_ ?_ ?_ ?_ ?_ steps0 ctx0 results0 results0 k0
  · intro ctx results res k
    simp [execute_steps, success_write_keys]
  · intro i sk inp out scr ev cases rest ctx results
    dsimp only
    intro ih res k
    rw [execute_skill_step_acc f _ ctx results] at ih
    try dsimp only at ih
    simp only [execute_steps]
    rw [execute_skill_step_acc f _ ctx res]
    try dsimp only
    simp only [execute_skill_step, Step.skill, Step.input, Step.output, Step.id] at ih ⊢
    simp only [success_write_keys]
    by_cases ht : truthy (f sk (resolve_variables inp ctx))
    · simp only [ht, if_true] at ih ⊢
      try dsimp only at ih ⊢
      rw [ih]
      simp only [dict_set_keys, List.mem_cons]
      tauto
    · simp only [ht, Bool.false_eq_true, if_false] at ih ⊢
      try dsimp only at ih ⊢
      rw [ih]
  · intro i sk inp out scr ev cases rest ctx results
    dsimp only
    intro ih res k
    rw [execute_script_step_acc _ ctx results] at ih
    try dsimp only at ih
    simp only [execute_steps]
    rw [execute_script_step_acc _ ctx res]
    try dsimp only
    simp only [execute_script_step, Step.script, Step.output, Step.id] at ih ⊢
    simp only [success_write_keys]
    rcases hf : find_handler scr with _ | p
    · simp only [hf] at ih ⊢
      try dsimp only at ih ⊢
      rw [ih]
    · rcases hr : p.2 ctx with e | v
      · simp only [hf, hr] at ih ⊢
        try dsimp only at ih ⊢
        rw [ih]
      · simp only [hf, hr] at ih ⊢
        try dsimp only at ih ⊢
        rw [ih]
        simp only [dict_set_keys, List.mem_cons]
        tauto
  · intro i sk inp out scr ev cases rest ctx results
    dsimp only
    intro ihc ih res k
    rw [execute_switch_cases_res_acc f cases ctx results] at ih
    try dsimp only at ih
    simp only [execute_steps]
    rw [execute_switch_cases_res_acc f cases ctx res]
    try dsimp only
    simp only [success_write_keys, Step.cases]
    rw [ih]
    have hb := ihc [] k
    simp only [List.mem_append]
    tauto
  · intro i sk inp out scr ev cases rest ctx results res k
    simp [execute_steps, success_write_keys]
  · intro i ty sk inp out scr ev cases rest ctx results h1 h2 h3 h4 ih res k
    rw [execute_steps_other f i ty sk inp out scr ev cases rest ctx res
        (fun h => h1 h) (fun h => h2 h) (fun h => h3 h) (fun h => h4 h),
      success_write_keys_other f i ty sk inp out scr ev cases rest ctx
        (fun h => h1 h) (fun h => h2 h) (fun h => h3 h) (fun h => h4 h)]
    exact ih res k
  · intro ctx results res k
    simp [execute_switch_cases, success_keys_cases]
  · intro condition actions cs ctx results
    intro hm ih res k
    simp only [execute_switch_cases, if_pos hm, success_keys_cases]
    try dsimp only
    exact ih res k
  · intro condition actions cs ctx results
    intro hm ih res k
    simp only [execute_switch_cases, if_neg hm, success_keys_cases]
    exact ih res k

theorem execute_switch_cases_keys (f : SkillFn) :
    ∀ (cases : List (OKey × List Step)) (ctx : Ctx) (results : List Rec) (k : OKey),
      k ∈ ctxKeys (execute_switch_cases f cases ctx results).1 ↔
        k ∈ ctxKeys ctx ∨ k ∈ success_keys_cases f cases ctx := by
  intro cases ctx results k
  induction cases with
  | nil => simp [execute_switch_cases, success_keys_cases]
  | cons c cs ih =>
    obtain ⟨condition, actions⟩ := c
    by_cases hm : condition = some "else" ∨ truthy (evaluate_condition condition ctx) = true
    · simp only [execute_switch_cases, if_pos hm, success_keys_cases]
      try dsimp only
      exact execute_steps_keys f actions ctx results k
    · simp only [execute_switch_cases, if_neg hm, success_keys_cases]
      exact ih

/-- Number of `success` records in a result list. -/
def success_count (l : List Rec) : Nat :=
  (l.filter (fun r => r.status == "success")).length

theorem success_count_append (a b : List Rec) :
    success_count (a ++ b) = success_count a + success_count b := by
  simp [success_count, List.filter_append]

theorem execute_steps_success_count (f : SkillFn) :
    ∀ (steps : List Step) (ctx : Ctx) (results : List Rec),
      success_count (execute_steps f steps ctx results).2.1 =
        success_count results + (success_write_keys f steps ctx).length := by
  intro steps0 ctx0 results0
  refine execute_steps.induct f
    (fun steps ctx _ => ∀ res, success_count (execute_steps f steps ctx res).2.1 =
      success_count res + (success_write_keys f steps ctx).length)
    (fun cases ctx _ => ∀ res, success_count (execute_switch_cases f cases ctx res).2 =
      success_count res + (success_keys_cases f cases ctx).length)
    ?_ ?_ ?_ ?_ ?_ ?_ ?_ ?_ ?_ steps0 ctx0 results0 results0
  · intro ctx results res
    simp [execute_steps, success_write_keys]
  · intro i sk inp out scr ev cases rest ctx results
    dsimp only
    intro ih res
    rw [execute_skill_step_acc f _ ctx results] at ih
    try dsimp only at ih
    simp only [execute_steps]
    rw [execute_skill_step_acc f _ ctx res]
    try dsimp only
    simp only [execute_skill_step, Step.skill, Step.input, Step.output, Step.id] at ih ⊢
    simp only [success_write_keys]
    by_cases ht : truthy (f sk (resolve_variables inp ctx))
    · simp only [ht, if_true] at ih ⊢
      try dsimp only at ih ⊢
      rw [ih]
      simp [success_count_append, success_count, List.filter]
      omega
    · simp only [ht, Bool.false_eq_true, if_false] at ih ⊢
      try dsimp only at ih ⊢
      rw [ih]
      simp [success_count_append, success_count, List.filter]
  · intro i sk inp out scr ev cases rest ctx results
    dsimp only
    intro ih res
    rw [execute_script_step_acc _ ctx results] at ih
    try dsimp only at ih
    simp only [execute_steps]
    rw [execute_script_step_acc _ ctx res]
    try dsimp only
    simp only [execute_script_step, Step.script, Step.output, Step.id] at ih ⊢
    simp only [success_write_keys]
    rcases hf : find_handler scr with _ | p
    · simp only [hf] at ih ⊢
      try dsimp only at ih ⊢
      rw [ih]
      simp [success_count_append, success_count, List.filter]
    · rcases hr : p.2 ctx with e | v
      · simp only [hf, hr] at ih ⊢
        try dsimp only at ih ⊢
        rw [ih]
        simp [success_count_append, success_count, List.filter]
      · simp only [hf, hr] at ih ⊢
        try dsimp only at ih ⊢
        rw [ih]
        simp [success_count_append, success_count, List.filter]
        omega
  · intro i sk inp out scr ev cases rest ctx results
    dsimp only
    intro ihc ih res
    rw [execute_switch_cases_res_acc f cases ctx results] at ih
    try dsimp only at ih
    simp only [execute_steps]
    rw [execute_switch_cases_res_acc f cases ctx res]
    try dsimp only
    simp only [success_write_keys, Step.cases]
    rw [ih]
    have hb := ihc []
    simp only [success_count_append, List.length_append]
    simp [success_count] at hb
    simp [success_count]
    omega
  · intro i sk inp out scr ev cases rest ctx results res
    simp [execute_steps, success_write_keys, success_count_append, success_count, List.filter]
  · intro i ty sk inp out scr ev cases rest ctx results h1 h2 h3 h4 ih res
    rw [execute_steps_other f i ty sk inp out scr ev cases rest ctx res
        (fun h => h1 h) (fun h => h2 h) (fun h => h3 h) (fun h => h4 h),
      success_write_keys_other f i ty sk inp out scr ev cases rest ctx
        (fun h => h1 h) (fun h => h2 h) (fun h => h3 h) (fun h => h4 h)]
    exact ih res
  · intro ctx results res
    simp [execute_switch_cases, success_keys_cases]
  · intro condition actions cs ctx results
    intro hm ih res
    simp only [execute_switch_cases, if_pos hm, success_keys_cases]
    try dsimp only
    exact ih res
  · intro condition actions cs ctx results
    intro hm ih res
    simp only [execute_switch_cases, if_neg hm, success_keys_cases]
    exact ih res

theorem replAux_no_occ (pat rep : List Char) :
    ∀ (n : Nat) (l : List Char), hasSub pat l = false → replAux pat rep n l = l := by
  intro n
  induction n with
  | zero =>
    intro l h
    cases l <;> simp [replAux]
  | succ n ih =>
    intro l h
    cases l with
    | nil => simp [replAux]
    | cons c cs =>
      simp only [hasSub, Bool.or_eq_false_iff] at h
      simp only [replAux, h.1, Bool.and_false, Bool.false_eq_true, if_false]
      rw [ih cs h.2]

theorem strReplace_no_occ (s pat rep : String) (h : strHasSub s pat = false) :
    strReplace s pat rep = s := by
  unfold strReplace
  rw [replAux_no_occ _ _ _ _ h]

/-- The nested-placeholder patterns one dict-valued context entry generates. -/
def sub_pats (k : String) : Entries → List String
  | .nil => []
  | .cons sk _ rest => ("\x7b\x7b" ++ k ++ "." ++ sk ++ "\x7d\x7d") :: sub_pats k rest

/-- All placeholder patterns one context entry generates in the
resolver loop. -/
def entry_pats (k : OKey) (v : Val) : List String :=
  (if scalar_like v then ["\x7b\x7b" ++ okey_str k ++ "\x7d\x7d"] else []) ++
    (match v with
    | .vDict es => sub_pats (okey_str k) es
    | _ => [])

/-- All placeholder patterns a context generates in the resolver loop. -/
def ctx_pats (ctx : Ctx) : List String :=
  ctx.foldr (fun kv acc => entry_pats kv.1 kv.2 ++ acc) []

theorem resolve_str_sub_no_occ (k : String) :
    ∀ (es : Entries) (acc : String),
      (∀ p ∈ sub_pats k es, strHasSub acc p = false) →
      resolve_str_sub acc k es = acc
  | .nil, acc, _ => by simp [resolve_str_sub]
  | .cons sk sv rest, acc, h => by
    have h1 : strHasSub acc ("\x7b\x7b" ++ k ++ "." ++ sk ++ "\x7d\x7d") = false :=
      h _ (by simp [sub_pats])
    simp only [resolve_str_sub]
    rw [strReplace_no_occ _ _ _ h1]
    exact resolve_str_sub_no_occ k rest acc (fun p hp => h p (by simp [sub_pats]; tauto))

theorem resolve_str_entry_no_occ (s : String) (k : OKey) (v : Val)
    (h : ∀ p ∈ entry_pats k v, strHasSub s p = false) :
    resolve_str_entry s k v = s := by
  cases v with
  | vNone => rfl
  | vBool b =>
    have h1 := h ("\x7b\x7b" ++ okey_str k ++ "\x7d\x7d") (by simp [entry_pats, scalar_like])
    have e : resolve_str_entry s k (.vBool b) =
        strReplace s ("\x7b\x7b" ++ okey_str k ++ "\x7d\x7d") (pyStr (.vBool b)) := rfl
    rw [e, strReplace_no_occ _ _ _ h1]
  | vInt n =>
    have h1 := h ("\x7b\x7b" ++ okey_str k ++ "\x7d\x7d") (by simp [entry_pats, scalar_like])
    have e : resolve_str_entry s k (.vInt n) =
        strReplace s ("\x7b\x7b" ++ okey_str k ++ "\x7d\x7d") (pyStr (.vInt n)) := rfl
    rw [e, strReplace_no_occ _ _ _ h1]
  | vFloat m ex =>
    have h1 := h ("\x7b\x7b" ++ okey_str k ++ "\x7d\x7d") (by simp [entry_pats, scalar_like])
    have e : resolve_str_entry s k (.vFloat m ex) =
        strReplace s ("\x7b\x7b" ++ okey_str k ++ "\x7d\x7d") (pyStr (.vFloat m ex)) := rfl
    rw [e, strReplace_no_occ _ _ _ h1]
  | vStr t =>
    have h1 := h ("\x7b\x7b" ++ okey_str k ++ "\x7d\x7d") (by simp [entry_pats, scalar_like])
    have e : resolve_str_entry s k (.vStr t) =
        strReplace s ("\x7b\x7b" ++ okey_str k ++ "\x7d\x7d") (pyStr (.vStr t)) := rfl
    rw [e, strReplace_no_occ _ _ _ h1]
  | vDict es =>
    have e : resolve_str_entry s k (.vDict es) = resolve_str_sub s (okey_str k) es := rfl
    rw [e]
    exact resolve_str_sub_no_occ _ es s
      (fun p hp => h p (by simp [entry_pats, scalar_like]; exact hp))

theorem resolve_str_no_occ :
    ∀ (ctx : Ctx) (s : String),
      (∀ p ∈ ctx_pats ctx, strHasSub s p = false) →
      resolve_str s ctx = s := by
  intro ctx
  induction ctx with
  | nil => intro s _; simp [resolve_str]
  | cons kv rest ih =>
    intro s h
    have he : resolve_str_entry s kv.1 kv.2 = s :=
      resolve_str_entry_no_occ s kv.1 kv.2
        (fun p hp => h p (by simp [ctx_pats]; tauto))
    simp only [resolve_str, List.foldl_cons, he]
    exact ih s (fun p hp => h p (by simp [ctx_pats]; tauto))

/-- The test applied to one switch case by the source
(`condition == "else" or _evaluate_condition(condition, context)`). -/
def case_matches (condition : OKey) (ctx : Ctx) : Bool :=
  condition == some "else" || truthy (evaluate_condition condition ctx)

/-- Claim-side rendering (C8) of one placeholder lookup: the text between
the braces is either a top-level key with a scalar value, or
`key.subfield` with one level of nesting; anything else is unresolved. -/
def placeholder_val (ctx : Ctx) (inner : List Char) : Option String :=
  match splitFirst ['.'] inner with
  | none =>
    match ctx_find ctx (some (String.mk inner)) with
    | some v => if scalar_like v then some (pyStr v) else none
    | none => none
  | some p =>
    match ctx_find ctx (some (String.mk p.1)) with
    | some (.vDict es) => (es.find (String.mk p.2)).map pyStr
    | _ => none

/-- Claim-side rendering (C8) of template-string resolution: one
simultaneous left-to-right pass that replaces every placeholder whose
path resolves and leaves the others verbatim. -/
def resolve_str_claim (ctx : Ctx) : Nat → List Char → List Char
  | 0, l => l
  | n + 1, l =>
    match splitFirst ['\x7b', '\x7b'] l with
    | none => l
    | some p1 =>
      match splitFirst ['\x7d', '\x7d'] p1.2 with
      | none => l
      | some p2 =>
        match placeholder_val ctx p2.1 with
        | some txt => p1.1 ++ txt.data ++ resolve_str_claim ctx n p2.2
        | none =>
          p1.1 ++ ['\x7b', '\x7b'] ++ p2.1 ++ ['\x7d', '\x7d'] ++
            resolve_str_claim ctx n p2.2

/-- Claim-side rendering (C8) of `_resolve_variables`: same gating as the
source, but simultaneous single-pass substitution of each string. -/
def resolve_variables_claim (template : List (String × Val)) (ctx : Ctx) :
    List (String × Val) :=
  template.map (fun kv =>
    (kv.1,
      match kv.2 with
      | .vStr s =>
        if strHasSub s "\x7b\x7b" && strHasSub s "\x7d\x7d" then
          .vStr (String.mk (resolve_str_claim ctx s.data.length s.data))
        else .vStr s
      | v => v))

/-- Claim-side rendering (C6) of the `risk.score` substitution: the value
at `risk.score` whenever that path is present, `risk.result.score` only
when it is absent, and `0.5` only when both are absent. -/
def risk_score_claim (ctx : Ctx) : Val :=
  match get_val ctx ["risk", "score"] with
  | .vNone =>
    match get_val ctx ["risk", "result", "score"] with
    | .vNone => .vFloat 5 1
    | v => v
  | v => v

/-- Claim-side rendering (C6) of the substitution phase of
`_evaluate_condition`, differing from `cond_subst` only in using
`risk_score_claim`. -/
def cond_subst_claim (cond : String) (ctx : Ctx) : String :=
  let e1 :=
    if strHasSub cond "risk.score" then
      strReplace cond "risk.score" (pyStr (risk_score_claim ctx))
    else cond
  let e2 :=
    if strHasSub e1 "validation.ok" then
      strReplace
        (strReplace
          (strReplace e1 "validation.ok" (pyStr (get_val ctx ["validation", "ok"])))
          "true" "True")
        "false" "False"
    else e1
  strReplace (strReplace e2 "&&" " and ") "||" " or "

/-- Claim-side rendering (C6) of the whole condition evaluator. -/
def evaluate_condition_claim (cond : Option String) (ctx : Ctx) : Val :=
  match cond with
  | none => .vBool false
  | some c =>
    match py_eval_str (cond_subst_claim c ctx) with
    | .ok v => v
    | .error _ => .vBool false

/-- C10: a step whose `type` is not one of `skill`, `script`, `switch`,
`wait_for_event` (including a missing type) appends no result record,
leaves the context unchanged, raises nothing, and execution continues
with the next step of the sequence. -/
theorem c10_unrecognized_step_skipped (f : SkillFn) (s : Step) (rest : List Step)
    (ctx : Ctx) (results : List Rec)
    (h1 : s.stepType ≠ some "skill") (h2 : s.stepType ≠ some "script")
    (h3 : s.stepType ≠ some "switch") (h4 : s.stepType ≠ some "wait_for_event") :
    execute_steps f (s :: rest) ctx results = execute_steps f rest ctx results := by
  obtain ⟨i, ty, sk, inp, out, scr, ev, cases⟩ := s
  exact execute_steps_other f i ty sk inp out scr ev cases rest ctx results h1 h2 h3 h4

theorem c10_witness :
    (Step.mk (some "x") (some "mystery") none [] none "" none []).stepType ≠ some "skill" ∧
    (Step.mk (some "x") (some "mystery") none [] none "" none []).stepType ≠ some "script" ∧
    (Step.mk (some "x") (some "mystery") none [] none "" none []).stepType ≠ some "switch" ∧
    (Step.mk (some "x") (some "mystery") none [] none "" none []).stepType ≠
      some "wait_for_event" ∧
    execute_steps mock_invoke_skill
        [Step.mk (some "x") (some "mystery") none [] none "" none []] [] [] =
      execute_steps mock_invoke_skill [] [] [] :=
  ⟨by decide, by decide, by decide, by decide,
    c10_unrecognized_step_skipped mock_invoke_skill
      (Step.mk (some "x") (some "mystery") none [] none "" none []) [] [] []
      (by decide) (by decide) (by decide) (by decide)⟩

/-- C9: `execute_flow` on an unregistered flow name returns without
raising, with status `failed`, an outcome carrying no result records and
no final context, and runs no step at all (the outcome does not depend
on the skill capability or on the input data beyond the flow name). -/
theorem c9_unknown_flow_failed (f g : SkillFn) (flows : List (String × List Step))
    (flow_name : String) (input_data input2 : List (String × Val))
    (h : flow_lookup flows flow_name = none) :
    execute_flow f flows flow_name input_data =
      ⟨none, "failed", none, none, some ("Flow " ++ flow_name ++ " not found")⟩ ∧
    (execute_flow f flows flow_name input_data).results.getD [] = [] ∧
    execute_flow f flows flow_name input_data =
      execute_flow g flows flow_name input2 := by
  unfold execute_flow
  rw [h]
  exact ⟨rfl, rfl, rfl⟩

theorem c9_witness :
    flow_lookup [("InvoiceProcessingFlow", [])] "NoSuchFlow" = none ∧
    execute_flow mock_invoke_skill [("InvoiceProcessingFlow", [])] "NoSuchFlow"
        [("a", .vInt 1)] =
      ⟨none, "failed", none, none, some ("Flow " ++ "NoSuchFlow" ++ " not found")⟩ :=
  ⟨rfl,
    (c9_unknown_flow_failed mock_invoke_skill mock_invoke_skill
      [("InvoiceProcessingFlow", [])] "NoSuchFlow" [("a", .vInt 1)] [] rfl).1⟩

/-- C2: a `wait_for_event` step appends exactly one result record, with
status `paused` and reason `wait_for_event`, leaves the context
untouched, and terminates its step sequence: the outcome is the same
whatever sibling steps follow it. -/
theorem c2_wait_for_event_halts (f : SkillFn) (w : Step) (post post2 : List Step)
    (ctx : Ctx) (results : List Rec) (h : w.stepType = some "wait_for_event") :
    execute_steps f (w :: post) ctx results =
      (ctx, results ++ [⟨w.id, "paused", none, none, some "wait_for_event"⟩], true) ∧
    execute_steps f (w :: post) ctx results = execute_steps f (w :: post2) ctx results := by
  obtain ⟨i, ty, sk, inp, out, scr, ev, cases⟩ := w
  have h' : ty = some "wait_for_event" := h
  subst h'
  constructor
  · simp [execute_steps, Step.id]
  · simp [execute_steps]

theorem c2_witness :
    (Step.mk (some "w") (some "wait_for_event") none [] none "" (some "ev") []).stepType =
      some "wait_for_event" ∧
    execute_steps mock_invoke_skill
        [Step.mk (some "w") (some "wait_for_event") none [] none "" (some "ev") [],
          Step.mk (some "later") (some "script") none [] none "run auto_approve" none []]
        [] [] =
      ([], [⟨some "w", "paused", none, none, some "wait_for_event"⟩], true) :=
  ⟨rfl,
    (c2_wait_for_event_halts mock_invoke_skill
      (Step.mk (some "w") (some "wait_for_event") none [] none "" (some "ev") [])
      [Step.mk (some "later") (some "script") none [] none "run auto_approve" none []]
      [] [] [] rfl).1⟩

/-- C3: switch cases are examined in declared order and exactly the first
case whose condition is the literal `else` or evaluates truthy has its
actions run as a nested step sequence (later cases are not examined);
with no matching case the switch appends no record and changes no
context key, and the outer sequence continues after the switch step. -/
theorem c3_switch_first_match (f : SkillFn) :
    (∀ (cases : List (OKey × List Step)) (ctx : Ctx) (results : List Rec),
      execute_switch_cases f cases ctx results =
        (match cases.find? (fun c => case_matches c.1 ctx) with
        | some c => ((execute_steps f c.2 ctx results).1, (execute_steps f c.2 ctx results).2.1)
        | none => (ctx, results))) ∧
    (∀ (s : Step) (rest : List Step) (ctx : Ctx) (results : List Rec),
      s.stepType = some "switch" →
        execute_steps f (s :: rest) ctx results =
          execute_steps f rest (execute_switch_step f s ctx results).1
            (execute_switch_step f s ctx results).2) := by
  constructor
  · intro cases ctx results
    induction cases with
    | nil => simp [execute_switch_cases, List.find?]
    | cons c cs ih =>
      obtain ⟨condition, actions⟩ := c
      by_cases hm : condition = some "else" ∨ truthy (evaluate_condition condition ctx) = true
      · have hb : case_matches condition ctx = true := by
          simp [case_matches]
          tauto
        simp [execute_switch_cases, if_pos hm, List.find?, hb]
      · have hm2 := hm
        push_neg at hm2
        have hb : case_matches condition ctx = false := by
          have h1 : (condition == some "else") = false := by
            simp only [beq_eq_false_iff_ne, ne_eq]
            exact hm2.1
          have h2 : truthy (evaluate_condition condition ctx) = false := by
            cases htv : truthy (evaluate_condition condition ctx)
            · rfl
            · exact absurd htv hm2.2
          simp [case_matches, h1, h2]
        simp only [execute_switch_cases, if_neg hm, List.find?, hb]
        exact ih
  · intro s rest ctx results h
    obtain ⟨i, ty, sk, inp, out, scr, ev, cases⟩ := s
    have h' : ty = some "switch" := h
    subst h'
    simp [execute_steps, execute_switch_step, Step.cases]

theorem c3_witness :
    (Step.mk (some "sw") (some "switch") none [] none "" none
        [(some "a", [Step.mk (some "n1") (some "script") none [] none "run auto_approve" none []]),
          (some "else", [Step.mk (some "n2") (some "script") none [] none "run auto_approve" none []])]).stepType =
      some "switch" ∧
    execute_switch_cases mock_invoke_skill
        [(some "a", [Step.mk (some "n1") (some "script") none [] none "run auto_approve" none []]),
          (some "else", [Step.mk (some "n2") (some "script") none [] none "run auto_approve" none []])]
        [] [] =
      ([(some "n2", .vDict (.cons "approved" (.vBool true) .nil))],
        [⟨some "n2", "success", some (.vDict (.cons "approved" (.vBool true) .nil)), none, none⟩]) := by
  constructor
  · rfl
  · rw [(c3_switch_first_match mock_invoke_skill).1
      [(some "a", [Step.mk (some "n1") (some "script") none [] none "run auto_approve" none []]),
        (some "else", [Step.mk (some "n2") (some "script") none [] none "run auto_approve" none []])]
      [] []]
    have hc1 : case_matches (some "a") ([] : Ctx) = false := rfl
    have hc2 : case_matches (some "else") ([] : Ctx) = true := rfl
    simp only [List.find?, hc1, hc2]
    simp [execute_steps, execute_script_step]
    decide

/-- C4: a skill step whose invocation returns a non-empty result map
writes that map into the context under the step output key (default:
the step id) and appends a `success` record carrying the output; an
invocation returning nothing (`None`) appends a `failed` record and
leaves the context unchanged; in both cases execution continues with
the next step of the sequence. -/
theorem c4_skill_step (f : SkillFn) (s : Step) (rest : List Step) (ctx : Ctx)
    (results : List Rec) :
    (∀ m : Entries, m ≠ .nil →
      f s.skill (resolve_variables s.input ctx) = .vDict m →
      execute_skill_step f s ctx results =
        (dict_set ctx (output_var s.output s.id) (.vDict m),
          results ++ [⟨s.id, "success", some (.vDict m), none, none⟩])) ∧
    (f s.skill (resolve_variables s.input ctx) = .vNone →
      execute_skill_step f s ctx results =
        (ctx, results ++ [⟨s.id, "failed", none, none, none⟩])) ∧
    (s.stepType = some "skill" →
      execute_steps f (s :: rest) ctx results =
        execute_steps f rest (execute_skill_step f s ctx results).1
          (execute_skill_step f s ctx results).2) := by
  refine ⟨?_, ?_, ?_⟩
  · intro m hm hf
    have ht : truthy (Val.vDict m) = true := by
      match m, hm with
      | .cons k v es, _ => rfl
    simp [execute_skill_step, hf, ht]
  · intro hf
    have ht : truthy Val.vNone = false := rfl
    simp [execute_skill_step, hf, ht]
  · intro h
    obtain ⟨i, ty, sk, inp, out, scr, ev, cases⟩ := s
    have h' : ty = some "skill" := h
    subst h'
    simp [execute_steps]

theorem c4_witness :
    (Entries.cons "skill" (.vStr "s") (.cons "status" (.vStr "mock_success")
        (.cons "result" (.vDict .nil) .nil)) ≠ .nil) ∧
    mock_invoke_skill
        (Step.mk (some "k1") (some "skill") (some "s") [] (some "outk") "" none []).skill
        (resolve_variables
          (Step.mk (some "k1") (some "skill") (some "s") [] (some "outk") "" none []).input []) =
      .vDict (.cons "skill" (.vStr "s") (.cons "status" (.vStr "mock_success")
        (.cons "result" (.vDict .nil) .nil))) ∧
    execute_skill_step mock_invoke_skill
        (Step.mk (some "k1") (some "skill") (some "s") [] (some "outk") "" none []) [] [] =
      (dict_set []
        (output_var (some "outk") (some "k1"))
        (.vDict (.cons "skill" (.vStr "s") (.cons "status" (.vStr "mock_success")
          (.cons "result" (.vDict .nil) .nil)))),
        [] ++ [⟨some "k1", "success",
          some (.vDict (.cons "skill" (.vStr "s") (.cons "status" (.vStr "mock_success")
            (.cons "result" (.vDict .nil) .nil)))), none, none⟩]) := by
  refine ⟨fun h => Entries.noConfusion h, rfl, ?_⟩
  exact (c4_skill_step mock_invoke_skill
    (Step.mk (some "k1") (some "skill") (some "s") [] (some "outk") "" none []) [] [] []).1
    (Entries.cons "skill" (.vStr "s") (.cons "status" (.vStr "mock_success")
      (.cons "result" (.vDict .nil) .nil)))
    (fun h => Entries.noConfusion h) rfl

/-- C5: script dispatch picks the first registered handler (registration
order: `validate_invoice`, then `auto_approve`) whose identifier occurs
in the script text; on handler success the returned map is written under
the output key (default: the step id) and a `success` record appended;
on a handler exception a `failed` record carrying the error message is
appended and the context is unchanged; with no matching handler a
`skipped` record with reason `no_handler` is appended; in every case
execution continues with the next step of the sequence. -/
theorem c5_script_step (f : SkillFn) (s : Step) (rest : List Step) (ctx : Ctx)
    (results : List Rec) :
    (strHasSub s.script "validate_invoice" = true →
      find_handler s.script = some ("validate_invoice", script_validate_invoice)) ∧
    (strHasSub s.script "validate_invoice" = false →
      strHasSub s.script "auto_approve" = true →
      find_handler s.script = some ("auto_approve", script_auto_approve)) ∧
    (strHasSub s.script "validate_invoice" = false →
      strHasSub s.script "auto_approve" = false →
      execute_script_step s ctx results =
        (ctx, results ++ [⟨s.id, "skipped", none, none, some "no_handler"⟩])) ∧
    (∀ p v, find_handler s.script = some p → p.2 ctx = .ok v →
      execute_script_step s ctx results =
        (dict_set ctx (output_var s.output s.id) v,
          results ++ [⟨s.id, "success", some v, none, none⟩])) ∧
    (∀ p e, find_handler s.script = some p → p.2 ctx = .error e →
      execute_script_step s ctx results =
        (ctx, results ++ [⟨s.id, "failed", none, some e, none⟩])) ∧
    (s.stepType = some "script" →
      execute_steps f (s :: rest) ctx results =
        execute_steps f rest (execute_script_step s ctx results).1
          (execute_script_step s ctx results).2) := by
  refine ⟨?_, ?_, ?_, ?_, ?_, ?_⟩
  · intro h1
    simp [find_handler, script_handlers, List.find?, h1]
  · intro h1 h2
    simp [find_handler, script_handlers, List.find?, h1, h2]
  · intro h1 h2
    have hf : find_handler s.script = none := by
      simp [find_handler, script_handlers, List.find?, h1, h2]
    simp [execute_script_step, hf]
  · intro p v hp hv
    simp [execute_script_step, hp, hv]
  · intro p e hp he
    simp [execute_script_step, hp, he]
  · intro h
    obtain ⟨i, ty, sk, inp, out, scr, ev, cases⟩ := s
    have h' : ty = some "script" := h
    subst h'
    simp [execute_steps]

theorem c5_witness :
    strHasSub
      (Step.mk (some "s1") (some "script") none [] (some "validation")
        "result = validate_invoice(context)" none []).script "validate_invoice" = true ∧
    find_handler
      (Step.mk (some "s1") (some "script") none [] (some "validation")
        "result = validate_invoice(context)" none []).script =
      some ("validate_invoice", script_validate_invoice) :=
  ⟨by decide,
    (c5_script_step mock_invoke_skill
      (Step.mk (some "s1") (some "script") none [] (some "validation")
        "result = validate_invoice(context)" none []) [] [] []).1 (by decide)⟩

/-- C6 counterexample: with `risk.score` present but equal to `0`, the
evaluator substitutes neither that value nor `risk.result.score` but the
default `0.5` (Python `or` treats the stored `0` as falsy), so
`risk.score < 0.3` evaluates to `False` where the claimed substitution
of the stored value would make it `True`. -/
theorem c6_counterexample :
    get_val [(some "risk", .vDict (.cons "score" (.vInt 0) .nil))] ["risk", "score"] =
      .vInt 0 ∧
    risk_score_val [(some "risk", .vDict (.cons "score" (.vInt 0) .nil))] = .vFloat 5 1 ∧
    evaluate_condition (some "risk.score < 0.3")
      [(some "risk", .vDict (.cons "score" (.vInt 0) .nil))] = .vBool false ∧
    evaluate_condition_claim (some "risk.score < 0.3")
      [(some "risk", .vDict (.cons "score" (.vInt 0) .nil))] = .vBool true :=
  ⟨rfl, rfl, rfl, rfl⟩

/-- C6 amended: the substituted score is the value at `risk.score` when
that value is present and truthy, else the value at `risk.result.score`
when that is present and truthy, else the hardcoded default `0.5`
(absent paths read as `None`, which is falsy, so absence is one special
case of the truthiness fallback). -/
theorem c6_risk_score_truthy_fallback (ctx : Ctx) :
    risk_score_val ctx =
      (if truthy (get_val ctx ["risk", "score"]) then get_val ctx ["risk", "score"]
       else if truthy (get_val ctx ["risk", "result", "score"]) then
         get_val ctx ["risk", "result", "score"]
       else .vFloat 5 1) ∧
    evaluate_condition (some "risk.score < 0.3")
      [(some "risk", .vDict (.cons "score" (.vFloat 1 1) .nil))] = .vBool true ∧
    evaluate_condition (some "risk.score < 0.3")
      [(some "risk", .vDict (.cons "result"
        (.vDict (.cons "score" (.vFloat 2 1) .nil)) .nil))] = .vBool true ∧
    evaluate_condition (some "risk.score < 0.3")
      [(some "risk", .vDict (.cons "score" (.vInt 0) .nil))] = .vBool false := by
  refine ⟨?_, rfl, rfl, rfl⟩
  simp only [risk_score_val, py_or]

/-- C7 counterexample: the evaluator can return a non-boolean value: on
the condition string `"5"` the evaluated expression is the integer `5`,
which is returned as is (the caller later coerces it by truthiness). -/
theorem c7_counterexample :
    evaluate_condition (some "5") [] = .vInt 5 ∧
    (Val.vInt 5 ≠ .vBool true) ∧ (Val.vInt 5 ≠ .vBool false) :=
  ⟨rfl, fun h => Val.noConfusion h, fun h => Val.noConfusion h⟩

/-- C7 amended: the evaluator is total and never raises; every internal
failure (substitution producing an unparsable or unevaluable expression,
or a missing condition value) yields `False`; the result is the raw
evaluated value, boolean for the comparison-shaped conditions the flows
use; the two concrete examples of the claim hold. -/
theorem c7_evaluator_never_raises :
    (∀ ctx, evaluate_condition none ctx = .vBool false) ∧
    (∀ c ctx e, py_eval_str (cond_subst c ctx) = .error e →
      evaluate_condition (some c) ctx = .vBool false) ∧
    evaluate_condition (some "risk.score < 0.3 && validation.ok == true")
      [(some "risk", .vDict (.cons "score" (.vFloat 1 1) .nil)),
        (some "validation", .vDict (.cons "ok" (.vBool true) .nil))] = .vBool true ∧
    evaluate_condition (some "risk.score < 0.3 && validation.ok == true")
      [(some "risk", .vDict (.cons "score" (.vFloat 8 1) .nil)),
        (some "validation", .vDict (.cons "ok" (.vBool true) .nil))] = .vBool false ∧
    evaluate_condition (some "((") [] = .vBool false ∧
    evaluate_condition (some "foo.bar > 1") [] = .vBool false := by
  refine ⟨fun ctx => rfl, ?_, rfl, rfl, rfl, rfl⟩
  intro c ctx e h
  simp only [evaluate_condition, h]

theorem c7_witness :
    py_eval_str (cond_subst "((" []) = .error "SyntaxError: atom" ∧
    evaluate_condition (some "((") [] = .vBool false :=
  ⟨rfl, c7_evaluator_never_raises.2.1 "((" [] "SyntaxError: atom" rfl⟩

/-- C8 counterexample: substitution is sequential per context entry, so
placeholder text introduced by an earlier entry is rewritten again by a
later entry; with `name = "\x7b\x7bx\x7d\x7d"` and `x = 1` the template
`"\x7b\x7bname\x7d\x7d"` resolves to `"1"`, not to the textual form
`"\x7b\x7bx\x7d\x7d"` of the value of `name` that a single simultaneous
pass (the claim as stated) would produce. -/
theorem c8_counterexample :
    resolve_variables [("t", .vStr "\x7b\x7bname\x7d\x7d")]
        [(some "name", .vStr "\x7b\x7bx\x7d\x7d"), (some "x", .vInt 1)] =
      [("t", .vStr "1")] ∧
    resolve_variables_claim [("t", .vStr "\x7b\x7bname\x7d\x7d")]
        [(some "name", .vStr "\x7b\x7bx\x7d\x7d"), (some "x", .vInt 1)] =
      [("t", .vStr "\x7b\x7bx\x7d\x7d")] ∧
    resolve_variables [("t", .vStr "\x7b\x7bname\x7d\x7d")]
        [(some "name", .vStr "\x7b\x7bx\x7d\x7d"), (some "x", .vInt 1)] ≠
      resolve_variables_claim [("t", .vStr "\x7b\x7bname\x7d\x7d")]
        [(some "name", .vStr "\x7b\x7bx\x7d\x7d"), (some "x", .vInt 1)] :=
  ⟨rfl, rfl, by decide⟩

/-- C8 amended: the resolver is a total function that preserves the
template keys; non-string values and strings lacking a brace pair pass
through unchanged; a string in which no context-derived placeholder
pattern occurs is returned verbatim; substitutions are applied
sequentially per context entry in insertion order (so text introduced by
one replacement may be rewritten by a later entry); the concrete example
of the claim resolves as stated, and an unresolvable placeholder is left
verbatim while its neighbours are substituted. -/
theorem c8_resolver_sequential :
    (∀ (template : List (String × Val)) (ctx : Ctx),
      (resolve_variables template ctx).map Prod.fst = template.map Prod.fst) ∧
    (∀ (ctx : Ctx) (v : Val), (∀ s, v ≠ .vStr s) → resolve_value v ctx = v) ∧
    (∀ (ctx : Ctx) (s : String),
      strHasSub s "\x7b\x7b" = false ∨ strHasSub s "\x7d\x7d" = false →
      resolve_value (.vStr s) ctx = .vStr s) ∧
    (∀ (ctx : Ctx) (s : String),
      (∀ p ∈ ctx_pats ctx, strHasSub s p = false) →
      resolve_str s ctx = s) ∧
    resolve_variables
      [("greeting", .vStr "Hello \x7b\x7bname\x7d\x7d"),
        ("ref", .vStr "ID: \x7b\x7bdata.id\x7d\x7d")]
      [(some "name", .vStr "World"), (some "data", .vDict (.cons "id" (.vInt 123) .nil))] =
      [("greeting", .vStr "Hello World"), ("ref", .vStr "ID: 123")] ∧
    resolve_variables [("u", .vStr "\x7b\x7bname\x7d\x7d \x7b\x7bmissing\x7d\x7d")]
      [(some "name", .vStr "Bob")] =
      [("u", .vStr "Bob \x7b\x7bmissing\x7d\x7d")] := by
  refine ⟨?_, ?_, ?_, fun ctx s h => resolve_str_no_occ ctx s h, rfl, rfl⟩
  · intro template ctx
    simp [resolve_variables]
  · intro ctx v h
    cases v with
    | vStr s => exact absurd rfl (h s)
    | vNone => rfl
    | vBool b => rfl
    | vInt n => rfl
    | vFloat m e => rfl
    | vDict es => rfl
  · intro ctx s h
    rcases h with h | h <;> simp [resolve_value, h]

theorem c8_witness :
    (∀ p ∈ ctx_pats [(some "name", .vStr "Bob")], strHasSub "no placeholders here" p = false) ∧
    resolve_str "no placeholders here" [(some "name", .vStr "Bob")] = "no placeholders here" ∧
    resolve_value (.vInt 7) [(some "name", .vStr "Bob")] = .vInt 7 :=
  ⟨by decide,
    c8_resolver_sequential.2.2.2.1 [(some "name", .vStr "Bob")] "no placeholders here"
      (by decide),
    c8_resolver_sequential.2.1 [(some "name", .vStr "Bob")] (.vInt 7)
      (fun s h => Val.noConfusion h)⟩

/-- C1: for a registered flow, `execute_flow` returns the records and
final context of running the declared steps from the seeded context;
records accumulate append-only (earlier records are preserved as a
prefix, so each step's records sit at its declared position), a step
list decomposes left-to-right (records of earlier declared steps precede
those of later ones, including records produced inside switch actions),
and the final context key set is exactly the seeded input keys together
with the keys written by skill/script steps that appended a `success`
record (`success_write_keys`); the number of those keys equals the
number of `success` records. -/
theorem c1_order_and_context_keys (f : SkillFn) (flows : List (String × List Step))
    (flow_name : String) (input : List (String × Val)) (steps : List Step)
    (h : flow_lookup flows flow_name = some steps) :
    execute_flow f flows flow_name input =
      ⟨some flow_name, "completed",
        some (execute_steps f steps (input_ctx input) []).2.1,
        some (execute_steps f steps (input_ctx input) []).1, none⟩ ∧
    (∀ (l1 l2 : List Step) (ctx : Ctx) (results : List Rec),
      execute_steps f (l1 ++ l2) ctx results =
        (if (execute_steps f l1 ctx results).2.2 then execute_steps f l1 ctx results
         else execute_steps f l2 (execute_steps f l1 ctx results).1
                (execute_steps f l1 ctx results).2.1)) ∧
    (∀ (steps2 : List Step) (ctx : Ctx) (results : List Rec),
      execute_steps f steps2 ctx results =
        ((execute_steps f steps2 ctx []).1,
          results ++ (execute_steps f steps2 ctx []).2.1,
          (execute_steps f steps2 ctx []).2.2)) ∧
    (∀ k, k ∈ ctxKeys (execute_steps f steps (input_ctx input) []).1 ↔
      k ∈ ctxKeys (input_ctx input) ∨ k ∈ success_write_keys f steps (input_ctx input)) ∧
    success_count (execute_steps f steps (input_ctx input) []).2.1 =
      (success_write_keys f steps (input_ctx input)).length := by
  refine ⟨?_, execute_steps_append f, execute_steps_res_acc f,
    fun k => execute_steps_keys f steps (input_ctx input) [] k, ?_⟩
  · unfold execute_flow
    rw [h]
  · have hc := execute_steps_success_count f steps (input_ctx input) []
    simpa [success_count] using hc

theorem c1_witness :
    flow_lookup
        [("F", [Step.mk (some "w") (some "wait_for_event") none [] none "" (some "e") []])]
        "F" =
      some [Step.mk (some "w") (some "wait_for_event") none [] none "" (some "e") []] ∧
    execute_flow mock_invoke_skill
        [("F", [Step.mk (some "w") (some "wait_for_event") none [] none "" (some "e") []])]
        "F" [("a", .vInt 1)] =
      ⟨some "F", "completed",
        some (execute_steps mock_invoke_skill
          [Step.mk (some "w") (some "wait_for_event") none [] none "" (some "e") []]
          (input_ctx [("a", .vInt 1)]) []).2.1,
        some (execute_steps mock_invoke_skill
          [Step.mk (some "w") (some "wait_for_event") none [] none "" (some "e") []]
          (input_ctx [("a", .vInt 1)]) []).1, none⟩ :=
  ⟨rfl,
    (c1_order_and_context_keys mock_invoke_skill
      [("F", [Step.mk (some "w") (some "wait_for_event") none [] none "" (some "e") []])]
      "F" [("a", .vInt 1)]
      [Step.mk (some "w") (some "wait_for_event") none [] none "" (some "e") []] rfl).1⟩
